import Mathlib

/-!
Verification development for the Shawarma Admin dashboard
(`app.py` and `admin_neondb_helper.py`).

The embedding models, over exact rationals:
* the raw joined order table returned by `fetch_order_data` (cells that may
  be missing or unparseable),
* the data-cleaning steps of the Sales Forecasting page (`dropna`,
  `to_datetime`, `to_numeric(errors="coerce")`, `drop_duplicates`,
  quantile outlier trim, future-date exclusion, category normalization),
* the per-category grouping (`groupby(time_at.dt.date)["total_price"].sum()`),
* the per-category forecast loop with its single page-level exception handler,
* the dashboard narrowing filters (`item_filter` / `category_filter`),
* the menu-table helpers `add_menu_item` / `update_menu_item` over a pure
  table state.
-/

deriving instance DecidableEq for Except

/-- A raw cell as it arrives from the database / dataframe: a parsed value,
a missing value (`NULL` / `NaN`, what pandas `dropna` removes), or an
unparseable value (what `pd.to_numeric(errors="coerce")` turns into `NaN`
and what default `pd.to_datetime` raises on). -/
inductive Raw (α : Type) where
  | ok : α → Raw α
  | null : Raw α
  | bad : Raw α
deriving DecidableEq

/-- A timestamp: a calendar day number plus the time of day (as a fraction
of the day). `pandas` `.dt.date` keeps only the day component. -/
structure Timestamp where
  day : ℤ
  frac : ℚ
deriving DecidableEq

instance : LE Timestamp :=
  ⟨fun a b => a.day < b.day ∨ (a.day = b.day ∧ a.frac ≤ b.frac)⟩

instance (a b : Timestamp) : Decidable (a ≤ b) :=
  inferInstanceAs (Decidable (_ ∨ _))

/-- One row of the joined `orders ⋈ menu` table as `fetch_order_data`
returns it, before any cleaning. -/
structure RawOrder where
  order_id : ℤ
  item_id : ℤ
  item_name : String
  item_price : Raw ℚ
  quantity : Raw ℚ
  total_price : Raw ℚ
  time_at : Raw Timestamp
  phone_number : String
  order_type : String
  category : String
deriving DecidableEq

/-- A fully cleaned order row: every coercible column holds a parsed value. -/
structure CleanOrder where
  order_id : ℤ
  item_id : ℤ
  item_name : String
  item_price : ℚ
  quantity : ℚ
  total_price : ℚ
  time_at : Timestamp
  phone_number : String
  order_type : String
  category : String
deriving DecidableEq

/-- `pd.to_numeric(col, errors="coerce")`: parsed values survive, anything
else (missing or unparseable) becomes `NaN` (modelled as `null`). -/
def coerceNum : Raw ℚ → Raw ℚ
  | Raw.ok v => Raw.ok v
  | _ => Raw.null

/-- The three `to_numeric` coercions of the forecasting page applied to a row
(`total_price`, `item_price`, `quantity`); `time_at` is untouched here. -/
def coerceRow (r : RawOrder) : RawOrder :=
  { r with
    total_price := coerceNum r.total_price
    item_price := coerceNum r.item_price
    quantity := coerceNum r.quantity }

/-- `df_orders.dropna(subset=["time_at", "total_price"])`. -/
def dropna1 (rows : List RawOrder) : List RawOrder :=
  rows.filter (fun r => decide (r.time_at ≠ Raw.null ∧ r.total_price ≠ Raw.null))

/-- `df.drop_duplicates()`: collapse exact-duplicate rows, keeping the first
occurrence. Structural recursion through an accumulator of rows seen. -/
def dedupFirstGo {α : Type} [DecidableEq α] (seen : List α) : List α → List α
  | [] => []
  | a :: l => if a ∈ seen then dedupFirstGo seen l else a :: dedupFirstGo (a :: seen) l

def dedupFirst {α : Type} [DecidableEq α] (l : List α) : List α :=
  dedupFirstGo [] l

/-- Extraction of a cleaned row once every coercible cell is a parsed value. -/
def extractClean (r : RawOrder) : Option CleanOrder :=
  match r.time_at, r.total_price, r.item_price, r.quantity with
  | Raw.ok t, Raw.ok tp, Raw.ok ip, Raw.ok q =>
    some ⟨r.order_id, r.item_id, r.item_name, ip, q, tp, t, r.phone_number,
      r.order_type, r.category⟩
  | _, _, _, _ => none

/-- The data-cleaning block of the Sales Forecasting page (app.py lines
316-322): `dropna(subset=["time_at","total_price"])`, then
`pd.to_datetime(df["time_at"])` — which RAISES on an unparseable value,
since `errors="coerce"` is not passed — then the three
`to_numeric(errors="coerce")` coercions, `dropna` over the coerced columns,
and `drop_duplicates`. The raise is modelled as the `Except.error` branch. -/
def cleanOrders (rows : List RawOrder) : Except String (List CleanOrder) :=
  let s1 := dropna1 rows
  if s1.any (fun r => decide (r.time_at = Raw.bad)) then
    Except.error "unparseable time_at"
  else
    let s2 := s1.map coerceRow
    let s3 := s2.filter (fun r =>
      decide (r.total_price ≠ Raw.null ∧ r.item_price ≠ Raw.null ∧ r.quantity ≠ Raw.null))
    Except.ok ((dedupFirst s3).filterMap extractClean)

/-- Linear-interpolation quantile, as `Series.quantile` computes it: sort,
take position `q·(n−1)`, interpolate between the neighbouring order
statistics. -/
def quantileLinear (xs : List ℚ) (q : ℚ) : ℚ :=
  let s := List.insertionSort (· ≤ ·) xs
  match s with
  | [] => 0
  | _ :: _ =>
    let pos : ℚ := q * ((s.length : ℚ) - 1)
    let i : ℕ := pos.floor.toNat
    let lo := s.getD i 0
    let hi := s.getD (i + 1) lo
    lo + (pos - (pos.floor : ℚ)) * (hi - lo)

/-- The outlier-removal step (app.py lines 325-329): keep the rows whose
`total_price` lies within the closed band of the 1st and 99th percentile of
`total_price` over the pre-trim cleaned set. -/
def outlierTrim (cl : List CleanOrder) : List CleanOrder :=
  let q_low := quantileLinear (cl.map (fun r => r.total_price)) (1 / 100)
  let q_high := quantileLinear (cl.map (fun r => r.total_price)) (99 / 100)
  cl.filter (fun r => decide (q_low ≤ r.total_price ∧ r.total_price ≤ q_high))

/-- `df_orders[df_orders["time_at"] <= today]` (app.py lines 332-333). -/
def dropFuture (today : Timestamp) (cl : List CleanOrder) : List CleanOrder :=
  cl.filter (fun r => decide (r.time_at ≤ today))

/-- Python `str.strip()`: remove leading and trailing whitespace. -/
def pyStrip (s : String) : String :=
  ⟨((s.data.dropWhile Char.isWhitespace).reverse.dropWhile Char.isWhitespace).reverse⟩

/-- Python `str.title()` over a character list: a letter that follows a
non-letter is uppercased, any other letter is lowercased. The boolean carries
whether the previous character was a letter. -/
def pyTitleGo : Bool → List Char → List Char
  | _, [] => []
  | prevAlpha, ch :: rest =>
    (if prevAlpha then ch.toLower else ch.toUpper) :: pyTitleGo ch.isAlpha rest

/-- `df_orders["category"].str.strip().str.title()` (app.py line 343). -/
def normalizeCategory (s : String) : String :=
  ⟨pyTitleGo false (pyStrip s).data⟩

/-- The whole forecasting-path preparation after the cleaning block: outlier
trim, future-date exclusion, category normalization (app.py lines 316-343). -/
def forecastPrep (rows : List RawOrder) (today : Timestamp) :
    Except String (List CleanOrder) :=
  (cleanOrders rows).map (fun cl =>
    ((dropFuture today (outlierTrim cl)).map
      (fun r => { r with category := normalizeCategory r.category })))

/-- The calendar-date component the grouping uses: `time_at.dt.date`. -/
def dateOf (r : CleanOrder) : ℤ :=
  r.time_at.day

/-- The distinct dates of a row set in ascending order — the group keys of
`groupby(df["time_at"].dt.date)` (pandas sorts group keys). -/
def groupDates (rows : List CleanOrder) : List ℤ :=
  List.insertionSort (· ≤ ·) (rows.map dateOf).dedup

/-- The summed `total_price` of the rows falling on one date. -/
def sumAtDate (rows : List CleanOrder) (d : ℤ) : ℚ :=
  ((rows.filter (fun r => decide (dateOf r = d))).map (fun r => r.total_price)).sum

/-- `df_category.groupby(df_category["time_at"].dt.date)["total_price"].sum()`
(app.py lines 350-356): one `(date, summed total_price)` pair per distinct
date, dates ascending. -/
def groupByDate (rows : List CleanOrder) : List (ℤ × ℚ) :=
  (groupDates rows).map (fun d => (d, sumAtDate rows d))

/-- The daily series the forecasting loop builds for one category:
`df_category = df_orders[df_orders["category"] == category]` then the
grouping above. -/
def seriesOf (rows : List CleanOrder) (c : String) : List (ℤ × ℚ) :=
  groupByDate (rows.filter (fun r => decide (r.category = c)))

/-- One row of Prophet's `predict` output as the page consumes it:
`ds`, `yhat`, `yhat_lower`, `yhat_upper`. -/
structure ForecastEntry where
  ds : ℤ
  yhat : ℚ
  yhat_lower : ℚ
  yhat_upper : ℚ
deriving DecidableEq

/-- What the page renders for one category: either the insufficient-data
message naming the category, or that category's forecast. -/
inductive CatResult where
  | insufficient (category : String)
  | forecasted (category : String) (fc : List ForecastEntry)
deriving DecidableEq

/-- The per-category loop of the Sales Forecasting page (app.py lines
346-415), with the model fit abstracted as a fallible `fit` function. A
category whose grouped series has fewer than 2 entries is reported as
insufficient and the loop continues. The whole loop body sits inside ONE
`try` whose handler is outside the loop (lines 314/416-418), so a `fit`
exception ends the loop: the categories already rendered stay on the page,
the rest are never processed, and the page shows one global error. The
result is the rendered per-category list plus the page-level error, if any. -/
def runForecastLoop (fit : List (ℤ × ℚ) → Except String (List ForecastEntry))
    (rows : List CleanOrder) : List String → List CatResult × Option String
  | [] => ([], none)
  | c :: cs =>
    let series := seriesOf rows c
    if series.length < 2 then
      let rest := runForecastLoop fit rows cs
      (CatResult.insufficient c :: rest.1, rest.2)
    else
      match fit series with
      | Except.error e => ([], some e)
      | Except.ok fc =>
        let rest := runForecastLoop fit rows cs
        (CatResult.forecasted c fc :: rest.1, rest.2)

/-- A fit/category step that does not end the loop: the category is either
skipped for lack of data or fitted without an exception. -/
def stepOk (fit : List (ℤ × ℚ) → Except String (List ForecastEntry))
    (rows : List CleanOrder) (c : String) : Prop :=
  (seriesOf rows c).length < 2 ∨ ∃ fc, fit (seriesOf rows c) = Except.ok fc

/-- One row of the `menu` table. -/
structure MenuRow where
  id : ℕ
  item_name : String
  category : String
  item_price : ℚ
deriving DecidableEq

/-- The `menu` table state: its rows plus the id the store assigns next. -/
structure MenuDB where
  rows : List MenuRow
  nextId : ℕ
deriving DecidableEq

/-- `fetch_menu`: `SELECT id, item_name, category, item_price FROM menu
ORDER BY id`. -/
def fetch_menu (db : MenuDB) : List MenuRow :=
  List.insertionSort (fun a b => a.id ≤ b.id) db.rows

/-- `add_menu_item` (admin_neondb_helper.py lines 83-116): raises
`ValueError` before touching the database when the name or category strips
to empty or the price is negative; otherwise inserts one row holding the
stripped name and category. Returns the operation's outcome paired with the
table state afterwards. -/
def add_menu_item (db : MenuDB) (item_name category : String) (price : ℚ) :
    Except String Unit × MenuDB :=
  if pyStrip item_name = "" then (Except.error "Item name cannot be empty", db)
  else if pyStrip category = "" then (Except.error "Category cannot be empty", db)
  else if price < 0 then (Except.error "Price cannot be negative", db)
  else
    (Except.ok (),
      ⟨db.rows ++ [⟨db.nextId, pyStrip item_name, pyStrip category, price⟩],
        db.nextId + 1⟩)

/-- `update_menu_item` (admin_neondb_helper.py lines 118-141): a single
`UPDATE menu SET item_name=%s, category=%s, item_price=%s WHERE id=%s` with
no validation, no trimming and no affected-row check — a missing id updates
zero rows and surfaces nothing. -/
def update_menu_item (db : MenuDB) (item_id : ℕ) (item_name category : String)
    (price : ℚ) : Except String Unit × MenuDB :=
  (Except.ok (),
    ⟨db.rows.map (fun r =>
      if r.id = item_id then
        { r with item_name := item_name, category := category, item_price := price }
      else r), db.nextId⟩)

/-- The dashboard's narrowing filter (app.py lines 106-111): Python's
`if selection and len(selection) < len(options)` applies the `isin`
restriction only when the selection is non-empty and shorter than the
option list; otherwise the rows pass through unchanged. `field` picks the
column the filter matches (`item_name` or `category`). -/
def narrowFilter (field : CleanOrder → String) (sel opts : List String)
    (rows : List CleanOrder) : List CleanOrder :=
  if sel ≠ [] ∧ sel.length < opts.length then
    rows.filter (fun r => decide (field r ∈ sel))
  else rows

/-- `df_filtered[df_filtered["item_name"].isin(item_filter)]` under the
narrowing guard. -/
def itemFilterStep (sel opts : List String) (rows : List CleanOrder) :
    List CleanOrder :=
  narrowFilter (fun r => r.item_name) sel opts rows

/-- `df_filtered[df_filtered["category"].isin(category_filter)]` under the
narrowing guard. -/
def categoryFilterStep (sel opts : List String) (rows : List CleanOrder) :
    List CleanOrder :=
  narrowFilter (fun r => r.category) sel opts rows

/-- Modelled from the spec: the forecaster itself is the Prophet library,
whose model-fitting code is not part of this repository's sources; app.py
only calls `Prophet().fit`, `make_future_dataframe(periods=horizon)` and
`predict`. Following spec §4.3, this model fits a univariate additive trend
(ordinary least squares over the historical `(date, value)` pairs) and emits
one entry per historical date plus `horizon` consecutive calendar days after
the last historical date, each carrying a central estimate and a symmetric
uncertainty band of half-width the largest absolute fit residual. -/
def forecast (series : List (ℤ × ℚ)) (horizon : ℕ) : List ForecastEntry :=
  let n : ℚ := series.length
  let sx : ℚ := (series.map (fun p => (p.1 : ℚ))).sum
  let sy : ℚ := (series.map Prod.snd).sum
  let sxx : ℚ := (series.map (fun p => (p.1 : ℚ) * (p.1 : ℚ))).sum
  let sxy : ℚ := (series.map (fun p => (p.1 : ℚ) * p.2)).sum
  let slope : ℚ := (n * sxy - sx * sy) / (n * sxx - sx * sx)
  let intercept : ℚ := (sy - slope * sx) / n
  let width : ℚ :=
    (series.map (fun p => |p.2 - (slope * (p.1 : ℚ) + intercept)|)).foldr max 0
  let lastDate : ℤ := (series.map Prod.fst).getLastD 0
  let dates : List ℤ :=
    series.map Prod.fst ++ (List.range horizon).map (fun i => lastDate + 1 + (i : ℤ))
  dates.map (fun d =>
    ⟨d, slope * (d : ℚ) + intercept,
      slope * (d : ℚ) + intercept - width,
      slope * (d : ℚ) + intercept + width⟩)

/-! ## Helper lemmas -/

theorem dedupFirstGo_subset {α : Type} [DecidableEq α] :
    ∀ (l seen : List α), dedupFirstGo seen l ⊆ l := by
  intro l
  induction l with
  | nil => intro seen a ha; simp [dedupFirstGo] at ha
  | cons x xs ih =>
    intro seen a ha
    simp only [dedupFirstGo] at ha
    by_cases hx : x ∈ seen
    · rw [if_pos hx] at ha
      exact List.mem_cons_of_mem _ (ih seen ha)
    · rw [if_neg hx] at ha
      rcases List.mem_cons.1 ha with rfl | h
      · exact List.mem_cons_self _ _
      · exact List.mem_cons_of_mem _ (ih _ h)

theorem dedupFirst_subset {α : Type} [DecidableEq α] (l : List α) :
    dedupFirst l ⊆ l :=
  dedupFirstGo_subset l []

theorem nodup_subset_length_le {α : Type} [DecidableEq α] {l₁ l₂ : List α}
    (h₁ : l₁.Nodup) (hsub : l₁ ⊆ l₂) : l₁.length ≤ l₂.length := by
  calc l₁.length = l₁.toFinset.card := (List.toFinset_card_of_nodup h₁).symm
    _ ≤ l₂.toFinset.card := Finset.card_le_card (fun a ha => by
        simp only [List.mem_toFinset] at ha ⊢
        exact hsub ha)
    _ ≤ l₂.length := l₂.toFinset_card_le

theorem groupDates_sorted_lt (rows : List CleanOrder) :
    (groupDates rows).Sorted (· < ·) := by
  have hs : (groupDates rows).Sorted (· ≤ ·) := List.sorted_insertionSort _ _
  have hn : (groupDates rows).Nodup :=
    ((List.perm_insertionSort _ _).nodup_iff).2 (List.nodup_dedup _)
  exact hs.lt_of_le hn

theorem extractClean_eq_some {r : RawOrder} {cr : CleanOrder}
    (h : extractClean r = some cr) :
    r.time_at = Raw.ok cr.time_at ∧ r.total_price = Raw.ok cr.total_price ∧
      r.item_price = Raw.ok cr.item_price ∧ r.quantity = Raw.ok cr.quantity := by
  cases hta : r.time_at <;> cases htp : r.total_price <;>
    cases hip : r.item_price <;> cases hq : r.quantity <;>
      simp_all [extractClean]
  subst h
  simp

theorem coerceNum_eq_ok {x : Raw ℚ} {v : ℚ} (h : coerceNum x = Raw.ok v) :
    x = Raw.ok v := by
  cases x <;> simp_all [coerceNum]

/-! ## The claims -/

/-- C2: for every cleaned order set and every category, the per-category
`DailySeries` produced by the date grouping has strictly increasing dates
with no duplicates, and the value at each date is the exact sum of
`total_price` over the cleaned rows of that category whose `time_at` falls
on that date. -/
theorem C2_daily_series_invariant (rows : List CleanOrder) (c : String) :
    ((seriesOf rows c).map Prod.fst).Pairwise (· < ·) ∧
    ∀ p ∈ seriesOf rows c,
      p.2 = ((rows.filter (fun r => decide (r.category = c ∧ dateOf r = p.1))).map
        (fun r => r.total_price)).sum := by
  constructor
  · have hmap : (seriesOf rows c).map Prod.fst =
        groupDates (rows.filter (fun r => decide (r.category = c))) := by
      rw [seriesOf, groupByDate, List.map_map]
      exact (List.map_congr_left (fun a _ => rfl)).trans (List.map_id _)
    rw [hmap]
    exact groupDates_sorted_lt _
  · intro p hp
    simp only [seriesOf, groupByDate, List.mem_map] at hp
    obtain ⟨d, _, rfl⟩ := hp
    simp only [sumAtDate, List.filter_filter]
    have hpred : (fun a => decide (dateOf a = d) && decide (a.category = c)) =
        (fun r : CleanOrder => decide (r.category = c ∧ dateOf r = d)) := by
      funext a
      simp [Bool.and_comm]
    rw [hpred]

/-- C6: the outlier trim keeps exactly the rows whose `total_price` lies in
the closed interval between the 1st and the 99th percentile of
`total_price` over the pre-trim cleaned set: no surviving row lies outside
the bounds, and every row inside the bounds survives. -/
theorem C6_outlier_trim_law (cl : List CleanOrder) :
    (∀ r ∈ outlierTrim cl,
      quantileLinear (cl.map (fun r => r.total_price)) (1 / 100) ≤ r.total_price ∧
        r.total_price ≤ quantileLinear (cl.map (fun r => r.total_price)) (99 / 100)) ∧
    (∀ r ∈ cl,
      quantileLinear (cl.map (fun r => r.total_price)) (1 / 100) ≤ r.total_price →
      r.total_price ≤ quantileLinear (cl.map (fun r => r.total_price)) (99 / 100) →
      r ∈ outlierTrim cl) := by
  constructor
  · intro r hr
    simp only [outlierTrim, List.mem_filter, decide_eq_true_eq] at hr
    exact hr.2
  · intro r hr h1 h2
    simp only [outlierTrim, List.mem_filter, decide_eq_true_eq]
    exact ⟨hr, h1, h2⟩

/-- C7: a category whose grouped daily series has fewer than 2 entries (one
entry per distinct date) is reported as insufficient data, naming the
category, and the loop proceeds to the remaining categories; the fit is
never invoked on a series of fewer than 2 points (two fits agreeing on all
series of length ≥ 2 drive the loop identically); and the series length is
exactly the number of distinct dates of that category's rows. -/
theorem C7_insufficient_data_skip :
    (∀ (fit : List (ℤ × ℚ) → Except String (List ForecastEntry))
      (rows : List CleanOrder) (c : String) (cs : List String),
      (seriesOf rows c).length < 2 →
      runForecastLoop fit rows (c :: cs) =
        (CatResult.insufficient c :: (runForecastLoop fit rows cs).1,
          (runForecastLoop fit rows cs).2)) ∧
    (∀ (fit₁ fit₂ : List (ℤ × ℚ) → Except String (List ForecastEntry))
      (rows : List CleanOrder) (cats : List String),
      (∀ s : List (ℤ × ℚ), 2 ≤ s.length → fit₁ s = fit₂ s) →
      runForecastLoop fit₁ rows cats = runForecastLoop fit₂ rows cats) ∧
    (∀ (rows : List CleanOrder) (c : String),
      (seriesOf rows c).length =
        ((rows.filter (fun r => decide (r.category = c))).map dateOf).dedup.length) := by
  refine ⟨?_, ?_, ?_⟩
  · intro fit rows c cs h
    simp only [runForecastLoop]
    rw [if_pos h]
  · intro fit₁ fit₂ rows cats h
    induction cats with
    | nil => rfl
    | cons c cs ih =>
      simp only [runForecastLoop]
      by_cases hlen : (seriesOf rows c).length < 2
      · rw [if_pos hlen, if_pos hlen, ih]
      · rw [if_neg hlen, if_neg hlen, h _ (Nat.le_of_not_lt hlen)]
        cases fit₂ (seriesOf rows c) <;> simp [ih]
  · intro rows c
    simp only [seriesOf, groupByDate, List.length_map, groupDates]
    exact (List.perm_insertionSort _ _).length_eq

/-- A concrete midnight timestamp on day `d`. -/
def sampleTs (d : ℤ) : Timestamp :=
  ⟨d, 0⟩

/-- A concrete cleaned order row of category `c` on day `d`. -/
def sampleRow (c : String) (d : ℤ) : CleanOrder :=
  ⟨1, 1, "Shawarma", 5, 1, 5, sampleTs d, "0501234567", "delivery", c⟩

/-- A concrete cleaned table: category "A" spans 2 distinct dates, category
"B" spans 3 distinct dates. -/
def sampleRows : List CleanOrder :=
  [sampleRow "A" 0, sampleRow "A" 1, sampleRow "B" 0, sampleRow "B" 1,
    sampleRow "B" 2]

/-- A fit that throws exactly on 2-point series (e.g. a degenerate input the
model rejects) and succeeds on anything else. -/
def failingFit : List (ℤ × ℚ) → Except String (List ForecastEntry) :=
  fun s => if s.length = 2 then Except.error "model fit failed" else Except.ok []

/-- C1 counterexample: with categories "A" (2 dates, fit throws) and "B"
(3 dates, fit succeeds), the loop's single page-level handler ends the run at
"A": the result carries no per-category report at all — in particular "B",
whose fit would succeed, is never computed or reported — and the error is a
single page-level message, not one scoped to "A". -/
theorem C1_counterexample :
    runForecastLoop failingFit sampleRows ["A", "B"] =
      ([], some "model fit failed") ∧
    failingFit (seriesOf sampleRows "B") = Except.ok [] := by
  decide

/-- C1 (amended): when the fit throws on one category's series, the loop
ends there: the exception is caught by the page-level handler (the loop's
result is a value carrying the error, the view does not crash), every
category processed before the failing one keeps its rendered result, and the
failing category and every category after it produce no result; the error is
reported once for the whole page. -/
theorem C1_fit_failure_page_level
    (fit : List (ℤ × ℚ) → Except String (List ForecastEntry))
    (rows : List CleanOrder) (pre : List String) (c : String)
    (post : List String) (e : String)
    (hpre : ∀ c' ∈ pre, stepOk fit rows c')
    (hlen : 2 ≤ (seriesOf rows c).length)
    (hfail : fit (seriesOf rows c) = Except.error e) :
    runForecastLoop fit rows (pre ++ c :: post) =
      ((runForecastLoop fit rows pre).1, some e) := by
  induction pre with
  | nil =>
    simp only [List.nil_append, runForecastLoop]
    rw [if_neg (Nat.not_lt.2 hlen), hfail]
  | cons c' pre' ih =>
    have hrest := ih (fun x hx => hpre x (List.mem_cons_of_mem _ hx))
    by_cases hshort : (seriesOf rows c').length < 2
    · simp only [List.cons_append, runForecastLoop, if_pos hshort,
        List.append_eq, hrest]
    · rcases hpre c' (List.mem_cons_self _ _) with hs | ⟨fc, hok⟩
      · exact absurd hs hshort
      · simp only [List.cons_append, runForecastLoop, if_neg hshort, hok,
        List.append_eq, hrest]

/-- C1 witness: a concrete run — "Z" has no rows (skipped), "A" has a
2-date series on which the fit throws, "B" follows — ends with "Z"'s
insufficient-data report kept, "B" unprocessed, and the one page-level
error. -/
theorem C1_fit_failure_page_level_witness :
    runForecastLoop failingFit sampleRows (["Z"] ++ "A" :: ["B"]) =
      ((runForecastLoop failingFit sampleRows ["Z"]).1, some "model fit failed") :=
  C1_fit_failure_page_level failingFit sampleRows ["Z"] "A" ["B"]
    "model fit failed"
    (fun c' hc' => by
      have : c' = "Z" := by simpa using hc'
      subst this
      exact Or.inl (by decide))
    (by decide) (by decide)

/-- C3 counterexample: one raw row whose `time_at` cell is unparseable (and
whose `total_price` is present, so `dropna` keeps it) makes the cleaning
step raise — the whole forecasting pipeline run fails instead of dropping
the row. -/
theorem C3_counterexample :
    cleanOrders
      [⟨1, 1, "Shawarma", Raw.ok 5, Raw.ok 1, Raw.ok 5, Raw.bad, "0501234567",
        "delivery", "A"⟩] = Except.error "unparseable time_at" := by
  decide

/-- C3 (amended): rows whose `total_price`, `item_price` or `quantity` fail
numeric coercion are dropped row-by-row and never fail the run — whenever no
row surviving the first `dropna` has an unparseable `time_at`, cleaning
succeeds and every output row stems from a raw row all four of whose
coercible cells parsed; but one surviving row with an unparseable `time_at`
makes the whole cleaning run fail, because `pd.to_datetime` is called
without `errors="coerce"`. -/
theorem C3_coercion_failure_handling (rows : List RawOrder) :
    ((∀ r ∈ dropna1 rows, r.time_at ≠ Raw.bad) →
      ∃ out, cleanOrders rows = Except.ok out ∧
        ∀ cr ∈ out, ∃ r ∈ rows,
          r.time_at = Raw.ok cr.time_at ∧ r.total_price = Raw.ok cr.total_price ∧
            r.item_price = Raw.ok cr.item_price ∧ r.quantity = Raw.ok cr.quantity) ∧
    ((∃ r ∈ dropna1 rows, r.time_at = Raw.bad) →
      cleanOrders rows = Except.error "unparseable time_at") := by
  constructor
  · intro hno
    have hany : ((dropna1 rows).any (fun r => decide (r.time_at = Raw.bad))) = false := by
      simp only [List.any_eq_false, decide_eq_true_eq]
      exact hno
    have hclean : cleanOrders rows =
        Except.ok ((dedupFirst (((dropna1 rows).map coerceRow).filter (fun r =>
          decide (r.total_price ≠ Raw.null ∧ r.item_price ≠ Raw.null ∧
            r.quantity ≠ Raw.null)))).filterMap extractClean) := by
      simp only [cleanOrders, hany]
      rfl
    refine ⟨_, hclean, ?_⟩
    intro cr hcr
    simp only [List.mem_filterMap] at hcr
    obtain ⟨r', hr', hex⟩ := hcr
    have hr's3 := dedupFirst_subset _ hr'
    simp only [List.mem_filter, List.mem_map] at hr's3
    obtain ⟨⟨r0, hr0s1, rfl⟩, _⟩ := hr's3
    have hr0rows : r0 ∈ rows := List.mem_of_mem_filter hr0s1
    obtain ⟨hta, htp, hip, hq⟩ := extractClean_eq_some hex
    refine ⟨r0, hr0rows, ?_, ?_, ?_, ?_⟩
    · exact hta
    · exact coerceNum_eq_ok htp
    · exact coerceNum_eq_ok hip
    · exact coerceNum_eq_ok hq
  · intro hbad
    have hany : ((dropna1 rows).any (fun r => decide (r.time_at = Raw.bad))) = true := by
      simp only [List.any_eq_true, decide_eq_true_eq]
      exact hbad
    simp only [cleanOrders, hany]
    rfl

theorem narrowFilter_full_noop {field : CleanOrder → String} {sel opts : List String}
    (hsel : sel.Nodup) (hopts : opts.Nodup) (hsub : sel ⊆ opts)
    (hfull : ∀ o ∈ opts, o ∈ sel) (rows : List CleanOrder) :
    narrowFilter field sel opts rows = rows := by
  unfold narrowFilter
  rw [if_neg]
  rintro ⟨_, hlt⟩
  have h1 : sel.length ≤ opts.length := nodup_subset_length_le hsel hsub
  have h2 : opts.length ≤ sel.length :=
    nodup_subset_length_le hopts (fun o ho => hfull o ho)
  omega

theorem narrowFilter_narrows {field : CleanOrder → String} {sel opts : List String}
    (hne : sel ≠ []) (hlt : sel.length < opts.length) (rows : List CleanOrder) :
    narrowFilter field sel opts rows ⊆ rows ∧
      ∀ r ∈ narrowFilter field sel opts rows, field r ∈ sel := by
  unfold narrowFilter
  rw [if_pos ⟨hne, hlt⟩]
  constructor
  · intro a ha
    exact List.mem_of_mem_filter ha
  · intro r hr
    simpa using (List.mem_filter.1 hr).2

/-- C4 counterexample: the empty selection is a strict subset of the option
set `["Shawarma", "Fries"]`, yet Python's `if item_filter and ...` guard
treats it as falsy, so the filter is skipped and the surviving row's item
name lies outside the (empty) selection — the claim's strict-subset clause
fails. -/
theorem C4_counterexample :
    itemFilterStep [] ["Shawarma", "Fries"] [sampleRow "A" 0] =
      [sampleRow "A" 0] ∧
    (sampleRow "A" 0).item_name ∉ ([] : List String) := by
  decide

/-- C4 (amended): for a selection drawn without repetition from the option
set, a selection covering the whole option set leaves the rows unchanged
(for the item filter and the category filter alike); a NON-EMPTY strict
subset yields a subset of the rows all of whose surviving entries match the
selection. (An empty selection — also a strict subset — is treated as falsy
by the guard and leaves the rows unchanged instead.) -/
theorem C4_narrowing_filter_law (sel opts : List String) (rows : List CleanOrder)
    (hsel : sel.Nodup) (hopts : opts.Nodup) (hsub : sel ⊆ opts) :
    ((∀ o ∈ opts, o ∈ sel) →
      itemFilterStep sel opts rows = rows ∧
        categoryFilterStep sel opts rows = rows) ∧
    (sel ≠ [] → sel.length < opts.length →
      (itemFilterStep sel opts rows ⊆ rows ∧
        ∀ r ∈ itemFilterStep sel opts rows, r.item_name ∈ sel) ∧
      (categoryFilterStep sel opts rows ⊆ rows ∧
        ∀ r ∈ categoryFilterStep sel opts rows, r.category ∈ sel)) := by
  constructor
  · intro hfull
    exact ⟨narrowFilter_full_noop hsel hopts hsub hfull rows,
      narrowFilter_full_noop hsel hopts hsub hfull rows⟩
  · intro hne hlt
    exact ⟨narrowFilter_narrows hne hlt rows, narrowFilter_narrows hne hlt rows⟩

/-- C4 witness: a concrete table and option set exercising both clauses of
the narrowing-filter law at selection `["A"]` over options `["A", "B"]`. -/
theorem C4_narrowing_filter_law_witness :
    ((∀ o ∈ ["A", "B"], o ∈ ["A"]) →
      itemFilterStep ["A"] ["A", "B"] [sampleRow "A" 0] = [sampleRow "A" 0] ∧
        categoryFilterStep ["A"] ["A", "B"] [sampleRow "A" 0] = [sampleRow "A" 0]) ∧
    (["A"] ≠ [] → (["A"] : List String).length < (["A", "B"] : List String).length →
      (itemFilterStep ["A"] ["A", "B"] [sampleRow "A" 0] ⊆ [sampleRow "A" 0] ∧
        ∀ r ∈ itemFilterStep ["A"] ["A", "B"] [sampleRow "A" 0],
          r.item_name ∈ ["A"]) ∧
      (categoryFilterStep ["A"] ["A", "B"] [sampleRow "A" 0] ⊆ [sampleRow "A" 0] ∧
        ∀ r ∈ categoryFilterStep ["A"] ["A", "B"] [sampleRow "A" 0],
          r.category ∈ ["A"])) :=
  C4_narrowing_filter_law ["A"] ["A", "B"] [sampleRow "A" 0]
    (by decide) (by decide) (by decide)

/-- C5: `add_menu_item` fails if and only if the name or the category is
empty after stripping or the price is negative; a failure leaves the table
untouched; a valid call appends exactly one new row carrying the stripped
name and category, and that row appears in a subsequent `fetch_menu`. -/
theorem C5_add_menu_item_contract (db : MenuDB) (n c : String) (p : ℚ) :
    ((∃ e, (add_menu_item db n c p).1 = Except.error e) ↔
      (pyStrip n = "" ∨ pyStrip c = "" ∨ p < 0)) ∧
    ((pyStrip n = "" ∨ pyStrip c = "" ∨ p < 0) →
      (add_menu_item db n c p).2 = db) ∧
    (pyStrip n ≠ "" → pyStrip c ≠ "" → 0 ≤ p →
      (add_menu_item db n c p).2.rows =
        db.rows ++ [⟨db.nextId, pyStrip n, pyStrip c, p⟩] ∧
      (⟨db.nextId, pyStrip n, pyStrip c, p⟩ : MenuRow) ∈
        fetch_menu (add_menu_item db n c p).2) := by
  by_cases h1 : pyStrip n = ""
  · simp [add_menu_item, h1]
  · by_cases h2 : pyStrip c = ""
    · simp [add_menu_item, h1, h2]
    · by_cases h3 : p < 0
      · simp [add_menu_item, h1, h2, h3]
      · have hadd : add_menu_item db n c p =
            (Except.ok (), ⟨db.rows ++ [⟨db.nextId, pyStrip n, pyStrip c, p⟩],
              db.nextId + 1⟩) := by
          simp [add_menu_item, h1, h2, h3]
        rw [hadd]
        refine ⟨?_, ?_, ?_⟩
        · simp [h1, h2, h3]
        · rintro (h | h | h) <;> simp_all
        · intro _ _ _
          refine ⟨rfl, ?_⟩
          unfold fetch_menu
          rw [(List.perm_insertionSort _ _).mem_iff]
          simp

/-- C8 counterexample: updating id 999 on an empty menu table completes
without any error and leaves the table unchanged — no `NotFoundError` is
raised for a missing id, contradicting the claim. -/
theorem C8_counterexample :
    update_menu_item ⟨[], 1⟩ 999 "Name" "Cat" 1 = (Except.ok (), ⟨[], 1⟩) := by
  decide

/-- C8 (amended): for an id absent from the table `update_menu_item`
completes without error as a silent no-op (the update matches zero rows and
nothing is surfaced); for a row whose id matches, all of name, category and
price are replaced by the given values. -/
theorem C8_update_menu_item_missing_id (db : MenuDB) (item_id : ℕ)
    (n c : String) (p : ℚ) :
    ((∀ r ∈ db.rows, r.id ≠ item_id) →
      update_menu_item db item_id n c p = (Except.ok (), db)) ∧
    (∀ r ∈ db.rows, r.id = item_id →
      (⟨item_id, n, c, p⟩ : MenuRow) ∈ (update_menu_item db item_id n c p).2.rows) := by
  constructor
  · intro h
    unfold update_menu_item
    have hmap : db.rows.map (fun r => if r.id = item_id then
        { r with item_name := n, category := c, item_price := p } else r) = db.rows := by
      rw [List.map_congr_left (fun r hr => if_neg (h r hr))]
      exact List.map_id _
    rw [hmap]
  · intro r hr hid
    have heq : (⟨item_id, n, c, p⟩ : MenuRow) =
        (if r.id = item_id then
          { r with item_name := n, category := c, item_price := p } else r) := by
      rw [if_pos hid, ← hid]
    rw [heq]
    exact List.mem_map_of_mem _ hr

/-- C10: `update_menu_item` validates nothing and trims nothing: for every
input — a whitespace-only or empty name or category, a negative price — the
call reports success, and a matching row is overwritten with the given
values exactly as passed (no stripping, unlike `add_menu_item`). -/
theorem C10_update_no_validation (db : MenuDB) (item_id : ℕ) (n c : String)
    (p : ℚ) :
    (update_menu_item db item_id n c p).1 = Except.ok () ∧
    ∀ r ∈ db.rows, r.id = item_id →
      ({ r with item_name := n, category := c, item_price := p } : MenuRow) ∈
        (update_menu_item db item_id n c p).2.rows := by
  constructor
  · rfl
  · intro r hr hid
    have heq : ({ r with item_name := n, category := c, item_price := p } : MenuRow) =
        (if r.id = item_id then
          { r with item_name := n, category := c, item_price := p } else r) := by
      rw [if_pos hid]
    rw [heq]
    exact List.mem_map_of_mem _ hr

theorem foldr_max_init_nonneg (l : List ℚ) : (0 : ℚ) ≤ l.foldr max 0 := by
  induction l with
  | nil => exact le_refl 0
  | cons a l ih => exact le_trans ih (le_max_right a _)

/-- C9 (spec-modelled forecaster): for a series of at least 2 strictly
increasing dates and a horizon of 7 or 30 days, the forecast covers every
historical date followed by exactly `horizon` consecutive calendar dates
after the last historical date, and every entry's bounds bracket its
central estimate. -/
theorem C9_forecast_shape (series : List (ℤ × ℚ)) (horizon : ℕ)
    (hh : horizon = 7 ∨ horizon = 30) (hlen : 2 ≤ series.length)
    (hsorted : (series.map Prod.fst).Pairwise (· < ·)) :
    (forecast series horizon).map (fun e => e.ds) =
      series.map Prod.fst ++
        (List.range horizon).map
          (fun i => (series.map Prod.fst).getLastD 0 + 1 + (i : ℤ)) ∧
    ∀ e ∈ forecast series horizon,
      e.yhat_lower ≤ e.yhat ∧ e.yhat ≤ e.yhat_upper := by
  constructor
  · unfold forecast
    rw [List.map_map]
    exact (List.map_congr_left fun a _ => rfl).trans (List.map_id _)
  · intro e he
    simp only [forecast, List.mem_map] at he
    obtain ⟨d, _, rfl⟩ := he
    exact ⟨sub_le_self _ (foldr_max_init_nonneg _),
      le_add_of_nonneg_right (foldr_max_init_nonneg _)⟩

/-- The 2-point series used to instantiate the forecaster's contract. -/
def sampleSeries : List (ℤ × ℚ) :=
  [(0, 1), (1, 3)]

/-- C9 witness: the forecaster's contract instantiated on a concrete 2-date
series at horizon 7. -/
theorem C9_forecast_shape_witness :
    (forecast sampleSeries 7).map (fun e => e.ds) =
      sampleSeries.map Prod.fst ++
        (List.range 7).map
          (fun i => (sampleSeries.map Prod.fst).getLastD 0 + 1 + (i : ℤ)) ∧
    ∀ e ∈ forecast sampleSeries 7,
      e.yhat_lower ≤ e.yhat ∧ e.yhat ≤ e.yhat_upper :=
  C9_forecast_shape sampleSeries 7 (Or.inl rfl) (by decide) (by decide)
